import Mathlib

/-!
# Verification of the LSD agglomeration engine (`lsd/agglomerate.py`)

A shallow embedding of the class `LsdAgglomeration`.  N-dimensional numpy
arrays become functions `Point → β` over integer coordinate lists, and a
numpy slice `a[roi.to_slices()]` becomes the translated function
`fun p => a (roi.offset + p)` (valid for ROIs lying inside the array, which
is the regime exercised here).  In-place writes to `self.segmentation` /
`self.lsds` / graph attributes become functional updates of an explicit
state record; writes to local arrays (or to local copies made with
`np.array`) stay local `let`-bindings.  Floating point scores are modelled
by exact rationals.

External collaborators (spec §6) are modelled from their documented
contracts:
* gunpowder's `Roi` (offset/shape, closed-open; `grow`, `intersect`,
  `union`, `snap_to_grid`, translation),
* scipy's `find_objects` (tight bounding box of a label),
* skimage's `RAG(labels, connectivity=2)` together with scipy's
  `generate_binary_structure(ndim, 2)` (labels are adjacent when they occur
  at voxels whose offset has every component in {-1,0,1} and city-block
  length at most 2),
* the `LsdExtractor`, kept fully opaque: an arbitrary deterministic
  function from a labelled slice, an optional ROI, a label list and a voxel
  size to a multi-channel descriptor field.
-/

/-- A voxel coordinate: one integer per spatial axis. -/
abbrev Point := List ℤ

/-- Axis-aligned integer region, offset/shape per axis, closed-open.
Modelled from the spec: the region geometry collaborator (gunpowder `Roi`,
spec §4.1) is not part of the repository; its operation contracts are
reproduced here. -/
structure Roi where
  offset : List ℤ
  shape : List ℤ
deriving DecidableEq, Repr, Inhabited

/-- `roi.get_begin()`. -/
def Roi.get_begin (r : Roi) : List ℤ := r.offset

/-- `roi.get_end()`: offset + shape per axis. -/
def Roi.get_end (r : Roi) : List ℤ := List.zipWith (· + ·) r.offset r.shape

/-- `roi.dims()`. -/
def Roi.dims (r : Roi) : ℕ := r.offset.length

/-- `roi.grow(neg, pos)`: move the begin down by `neg`, the end up by
`pos`. -/
def Roi.grow (r : Roi) (neg pos : List ℤ) : Roi :=
  ⟨List.zipWith (· - ·) r.offset neg,
   List.zipWith (· + ·) (List.zipWith (· + ·) r.shape neg) pos⟩

/-- `a.intersect(b)`: begin is the maximum of the begins, end the minimum
of the ends; an empty overlap yields a zero extent on the offending axis. -/
def Roi.intersect (a b : Roi) : Roi :=
  let b' := List.zipWith max a.offset b.offset
  let e' := List.zipWith min a.get_end b.get_end
  ⟨b', List.zipWith (fun x y => max 0 (y - x)) b' e'⟩

/-- `a.union(b)`: the bounding box of the two regions. -/
def Roi.union (a b : Roi) : Roi :=
  let b' := List.zipWith min a.offset b.offset
  let e' := List.zipWith max a.get_end b.get_end
  ⟨b', List.zipWith (fun x y => y - x) b' e'⟩

/-- `roi.snap_to_grid(g)` (default mode `grow`): round the begin down and
the end up to multiples of the grid. -/
def Roi.snap_to_grid (r : Roi) (grid : List ℤ) : Roi :=
  let b' := List.zipWith (fun x g => g * Int.fdiv x g) r.offset grid
  let e' := List.zipWith (fun x g => g * (-Int.fdiv (-x) g)) r.get_end grid
  ⟨b', List.zipWith (fun x y => y - x) b' e'⟩

/-- `roi - coordinate`: translate a region to be relative to an origin. -/
def Roi.sub (r : Roi) (off : List ℤ) : Roi :=
  ⟨List.zipWith (· - ·) r.offset off, r.shape⟩

/-- Voxel membership: the point lies within the closed-open box (and has
the region's dimensionality). -/
def Roi.contains (r : Roi) (p : Point) : Bool :=
  r.offset.length == p.length && (r.shape.length == p.length &&
    (List.range p.length).all (fun i =>
      decide (r.offset.getD i 0 ≤ p.getD i 0) &&
      decide (p.getD i 0 < r.offset.getD i 0 + r.shape.getD i 0)))

/-- All index vectors of an array of the given shape, in raster order
(empty as soon as one extent is non-positive). -/
def gridPoints : List ℤ → List Point
  | [] => [[]]
  | s :: ss => ((List.range s.toNat).map (fun i => (i : ℤ))).flatMap
      (fun x => (gridPoints ss).map (fun p => x :: p))

/-- All voxels of a region, in raster order. -/
def Roi.points (r : Roi) : List Point :=
  (gridPoints r.shape).map (fun q => List.zipWith (· + ·) r.offset q)

/-- Sum of a per-voxel quantity over the index grid of a slice of the
given shape (the shallow form of `np.sum` over a sliced array). -/
def sumGrid (shape : List ℤ) (f : Point → ℚ) : ℚ :=
  ((gridPoints shape).map f).sum

/-- Sum of squares of the entries of a channel vector. -/
def sqSum (l : List ℚ) : ℚ := (l.map (fun x => x * x)).sum

/-- Squared channel-wise difference `sum ((a - b)^2)`. -/
def sqDiff (a b : List ℚ) : ℚ := sqSum (List.zipWith (· - ·) a b)

/-- Slicing an array at a region's begin: the slice at relative index `p`
reads the array at `off + p`. -/
def sliceF {β : Type} (f : Point → β) (off : List ℤ) : Point → β :=
  fun p => f (List.zipWith (· + ·) off p)

/-- The local shape descriptor extractor (external collaborator, spec §6):
`get_context()` is the physical context per axis, `downsample` the grid the
node regions are snapped to, and
`get_descriptors(array, roi?, labels, voxel_size)` an arbitrary (hence
deterministic) descriptor field over the given ROI of the input slice
(indexed relative to the ROI's begin), or over the whole input when no ROI
is passed. -/
structure LsdExtractor where
  get_context : List ℚ
  downsample : ℤ
  get_descriptors : (Point → ℤ) → Option Roi → List ℤ → List ℚ → Point → List ℚ

/-- The read-only data of an `LsdAgglomeration` instance: the extractor,
the target descriptor volume, the voxel size, the spatial shape of the
fragments volume and (for stating the shape-mismatch claim) the spatial
extent of the target descriptor array. -/
structure AggCtx where
  lsd_extractor : LsdExtractor
  target_lsds : Point → List ℚ
  voxel_size : List ℚ
  total_shape : List ℤ
  target_shape : List ℤ

/-- The mutable data of an `LsdAgglomeration` instance: the live
segmentation volume `self.segmentation`, the live descriptor volume
`self.lsds`, and the RAG's node/edge attributes (`roi`, `score`, `weight`)
plus its edge list. -/
structure AggState where
  segmentation : Point → ℤ
  lsds : Point → List ℚ
  node_roi : ℤ → Roi
  node_score : ℤ → ℚ
  edge_weight : ℤ → ℤ → ℚ
  edges : List (ℤ × ℤ)
deriving Inhabited

/-- The context used by the shape descriptor, in voxels:
`ceil(c / vs)` per axis. -/
def context_vox (C : AggCtx) : List ℤ :=
  List.zipWith (fun c vs => ⌈c / vs⌉) C.lsd_extractor.get_context C.voxel_size

/-- The ROI of the complete volume: `gp.Roi((0,)*d, shape)`. -/
def total_roi (C : AggCtx) : Roi :=
  ⟨C.total_shape.map (fun _ => 0), C.total_shape⟩

/-- `__get_lsds_edge_rois(u, v)`: the pair `(change_roi, context_roi)`. -/
def get_lsds_edge_rois (C : AggCtx) (S : AggState) (u v : ℤ) : Roi × Roi :=
  let roi_u := S.node_roi u
  let roi_v := S.node_roi v
  let total := total_roi C
  let context := context_vox C
  let roi_u_grown := (roi_u.grow context context).intersect total
  let roi_v_grown := (roi_v.grow context context).intersect total
  let change_roi := (roi_u_grown.intersect roi_v_grown).intersect (roi_u.union roi_v)
  let context_roi := (change_roi.grow context context).intersect (roi_u.union roi_v)
  (change_roi, context_roi)

/-- `__compute_node_score(u)`: slice segmentation and target to `u`'s ROI,
extract descriptors for label `u`, sum the squared difference to the target
over the voxels labelled `u` (`diff[:, u_mask == 0] = 0` zeroes the rest),
and write the extracted descriptors into the live descriptor volume at the
`u`-labelled voxels of the ROI.  Returns the score and the updated state. -/
def compute_node_score (C : AggCtx) (S : AggState) (u : ℤ) : ℚ × AggState :=
  let roi := S.node_roi u
  let segmentation := sliceF S.segmentation roi.get_begin
  let lsds := C.lsd_extractor.get_descriptors segmentation none [u] C.voxel_size
  let u_mask : Point → Bool := fun q => segmentation q == u
  let score := sumGrid roi.shape (fun q =>
    if u_mask q then sqDiff (sliceF C.target_lsds roi.get_begin q) (lsds q) else 0)
  let lsds' : Point → List ℚ := fun p =>
    if roi.contains p && u_mask (List.zipWith (· - ·) p roi.get_begin)
    then lsds (List.zipWith (· - ·) p roi.get_begin) else S.lsds p
  (score, { S with lsds := lsds' })

/-- `__compute_edge_score(u, v)`: `s(u + v) - (s(u) + s(v))` over the
change ROI.  The segmentation slice is copied (`np.array`) before being
relabelled, and the diff arrays are fresh, so the live state is only
read. -/
def compute_edge_score (C : AggCtx) (S : AggState) (u v : ℤ) : ℚ :=
  let rois := get_lsds_edge_rois C S u v
  let change_roi := rois.1
  let context_roi := rois.2
  let segmentation := sliceF S.segmentation context_roi.get_begin
  let change_in_context_roi := change_roi.sub context_roi.get_begin
  let not_uv_mask : Point → Bool := fun q =>
    !(sliceF segmentation change_in_context_roi.get_begin q == u ||
      sliceF segmentation change_in_context_roi.get_begin q == v)
  let lsds_separate := sliceF S.lsds change_roi.get_begin
  let score_separate := sumGrid change_roi.shape (fun q =>
    if not_uv_mask q then 0
    else sqDiff (sliceF C.target_lsds change_roi.get_begin q) (lsds_separate q))
  let segmentation2 : Point → ℤ := fun q =>
    if segmentation q == u then v else segmentation q
  let lsds_merged := C.lsd_extractor.get_descriptors segmentation2
    (some change_in_context_roi) [v] C.voxel_size
  let score_merged := sumGrid change_roi.shape (fun q =>
    if not_uv_mask q then 0
    else sqDiff (sliceF C.target_lsds change_roi.get_begin q) (lsds_merged q))
  score_merged - score_separate

/-- `__compute_edge_score` with the state threaded through explicitly: the
method's array writes hit a fresh copy of the segmentation slice and fresh
diff arrays, never `self`, so the instance state passes through
unchanged. -/
def compute_edge_score_st (C : AggCtx) (S : AggState) (u v : ℤ) : ℚ × AggState :=
  (compute_edge_score C S u v, S)

/-- `__score_merge(u, v)`: the weight of a (new) edge. -/
def score_merge (C : AggCtx) (S : AggState) (u v : ℤ) : ℚ :=
  compute_edge_score C S u v

/-- `__merge_segmentation(u, v)`: inside `u`'s ROI, relabel `u` to `v` on
the live segmentation (a fancy-indexing write through the slice view). -/
def merge_segmentation (S : AggState) (u v : ℤ) : AggState :=
  let roi_u := S.node_roi u
  { S with segmentation := fun p =>
      if roi_u.contains p && (S.segmentation p == u) then v
      else S.segmentation p }

/-- `__merge_nodes(u, v)`: merge node `u` into `v` — relabel the
segmentation, recompute descriptors for `v` over the change ROI (reading
the context ROI), write them where the updated segmentation equals `v`,
set `v`'s ROI to the union and `v`'s score to
`score(v) + score(u) + weight(u, v)`. -/
def merge_nodes (C : AggCtx) (S : AggState) (u v : ℤ) : AggState :=
  let S1 := merge_segmentation S u v
  let rois := get_lsds_edge_rois C S1 u v
  let change_roi := rois.1
  let context_roi := rois.2
  let segmentation := sliceF S1.segmentation context_roi.get_begin
  let change_in_context_roi := change_roi.sub context_roi.get_begin
  let lsds_merged := C.lsd_extractor.get_descriptors segmentation
    (some change_in_context_roi) [v] C.voxel_size
  let v_mask : Point → Bool := fun q =>
    sliceF segmentation change_in_context_roi.get_begin q == v
  let lsds' : Point → List ℚ := fun p =>
    if change_roi.contains p && v_mask (List.zipWith (· - ·) p change_roi.get_begin)
    then lsds_merged (List.zipWith (· - ·) p change_roi.get_begin) else S1.lsds p
  let roi_u := S1.node_roi u
  let roi_v := S1.node_roi v
  { S1 with
    lsds := lsds'
    node_roi := fun w => if w == v then roi_u.union roi_v else S1.node_roi w
    node_score := fun w =>
      if w == v then S1.node_score v + S1.node_score u + S1.edge_weight u v
      else S1.node_score w }

/-- Smallest `i`-th coordinate among the listed points (0 on an empty
list). -/
def coordMin (pts : List Point) (i : ℕ) : ℤ :=
  match pts with
  | [] => 0
  | p :: rest => rest.foldl (fun m q => min m (q.getD i 0)) (p.getD i 0)

/-- Largest `i`-th coordinate among the listed points (0 on an empty
list). -/
def coordMax (pts : List Point) (i : ℕ) : ℤ :=
  match pts with
  | [] => 0
  | p :: rest => rest.foldl (fun m q => max m (q.getD i 0)) (p.getD i 0)

/-- `find_objects(fragments == u)[0]`.  Modelled from the spec: scipy's
`find_objects` (external collaborator) returns the tight bounding box of
the voxels carrying label `u` — per axis the slice from the smallest to
one past the largest coordinate.  `__slice_to_roi` turns those slices into
offset/shape. -/
def find_objects_roi (C : AggCtx) (frag : Point → ℤ) (u : ℤ) : Roi :=
  let pts := (total_roi C).points.filter (fun p => frag p == u)
  let d := C.total_shape.length
  ⟨(List.range d).map (fun i => coordMin pts i),
   (List.range d).map (fun i => coordMax pts i + 1 - coordMin pts i)⟩

/-- `__slice_to_roi`: snap the bounding box to the extractor's
downsampling grid (`roi.snap_to_grid((downsample,) * roi.dims())`). -/
def slice_to_roi (C : AggCtx) (bb : Roi) : Roi :=
  bb.snap_to_grid (List.replicate bb.dims C.lsd_extractor.downsample)

/-- Offsets admitted by `generate_binary_structure(d, 2)` (scipy contract,
used by `RAG(fragments, connectivity=2)`): every component in `{-1,0,1}`
and city-block length at most 2. -/
def struct2_offset (off : Point) : Bool :=
  off.all (fun o => decide (-1 ≤ o) && decide (o ≤ 1)) &&
    decide ((off.map Int.natAbs).sum ≤ 2)

/-- Adjacency recorded by `RAG(self.fragments, connectivity=2)`.  Modelled
from the library contract: two distinct labels are adjacent when they
occur at voxels related by a `generate_binary_structure(d, 2)` offset. -/
def rag_adjacent (C : AggCtx) (frag : Point → ℤ) (a b : ℤ) : Bool :=
  !(a == b) && (total_roi C).points.any (fun p =>
    frag p == a && (total_roi C).points.any (fun q =>
      frag q == b && struct2_offset (List.zipWith (· - ·) q p)))

/-- `self.rag.nodes()`: the distinct labels of the fragments volume. -/
def rag_nodes (C : AggCtx) (frag : Point → ℤ) : List ℤ :=
  ((total_roi C).points.map frag).dedup

/-- `self.rag.edges()`: each adjacent unordered pair once. -/
def rag_edges (C : AggCtx) (frag : Point → ℤ) : List (ℤ × ℤ) :=
  (rag_nodes C frag).flatMap (fun a => (rag_nodes C frag).filterMap (fun b =>
    if decide (a < b) && rag_adjacent C frag a b then some (a, b) else none))

/-- One iteration of the node loop of `__initialize_rag`: store `u`'s
snapped bounding box as its ROI, then its score (updating the live
descriptor volume as a side effect). -/
def init_node (C : AggCtx) (frag : Point → ℤ) (S : AggState) (u : ℤ) : AggState :=
  let roi := slice_to_roi C (find_objects_roi C frag u)
  let S1 := { S with node_roi := fun w => if w == u then roi else S.node_roi w }
  let scoreSt := compute_node_score C S1 u
  { scoreSt.2 with
    node_score := fun w => if w == u then scoreSt.1 else scoreSt.2.node_score w }

/-- One iteration of the edge loop of `__initialize_rag`: score the edge
and store the weight (symmetrically — the RAG is undirected). -/
def init_edge (C : AggCtx) (S : AggState) (e : ℤ × ℤ) : AggState :=
  let w := score_merge C S e.1 e.2
  { S with edge_weight := fun a b =>
      if a == e.1 && b == e.2 || a == e.2 && b == e.1 then w
      else S.edge_weight a b }

/-- `__initialize_rag`: build the RAG, give every node its ROI and score,
then weight every edge. -/
def init_rag (C : AggCtx) (frag : Point → ℤ) (S : AggState) : AggState :=
  let S1 := { S with edges := rag_edges C frag }
  let S2 := (rag_nodes C frag).foldl (init_node C frag) S1
  (rag_edges C frag).foldl (init_edge C) S2

/-- The state `__init__` builds before `__initialize_rag`: the fragments
copied into the live segmentation, the live descriptor volume zeroed
(`np.zeros_like`), graph attributes empty. -/
def init_state0 (C : AggCtx) (frag : Point → ℤ) : AggState :=
  { segmentation := frag
    lsds := fun p => (C.target_lsds p).map (fun _ => 0)
    node_roi := fun _ => ⟨[], []⟩
    node_score := fun _ => 0
    edge_weight := fun _ _ => 0
    edges := [] }

/-- The state a fresh `LsdAgglomeration` reaches when `__initialize_rag`
runs to completion (`agglomeration_init` says when it does). -/
def init_state (C : AggCtx) (frag : Point → ℤ) : AggState :=
  init_rag C frag (init_state0 C frag)

/-- Edge membership in the RAG, in either orientation. -/
def has_edge (S : AggState) (a b : ℤ) : Bool :=
  S.edges.any (fun e => e.1 == a && e.2 == b || e.1 == b && e.2 == a)

/-- The spec's `scoreSeparate` in its own words: within the change ROI,
the current live descriptors at voxels already labelled `u` or `v`,
diffed against the target, squared and summed (absolute coordinates). -/
def scoreSeparateSpec (C : AggCtx) (S : AggState) (u v : ℤ) : ℚ :=
  let change_roi := (get_lsds_edge_rois C S u v).1
  (change_roi.points.map (fun p =>
    if S.segmentation p == u || S.segmentation p == v
    then sqDiff (C.target_lsds p) (S.lsds p) else 0)).sum

/-- The spec's hypothetically-merged descriptors: extract for label `v`
from a scratch copy of the segmentation slice in which every `u`-labelled
voxel was relabelled to `v`. -/
def mergedSliceDescriptors (C : AggCtx) (S : AggState) (u v : ℤ) : Point → List ℚ :=
  let rois := get_lsds_edge_rois C S u v
  let scratch : Point → ℤ := fun q =>
    if sliceF S.segmentation rois.2.get_begin q == u then v
    else sliceF S.segmentation rois.2.get_begin q
  C.lsd_extractor.get_descriptors scratch (some (rois.1.sub rois.2.get_begin))
    [v] C.voxel_size

/-- The spec's `scoreMerged`: the same masked sum with the
hypothetically-merged descriptors in place of the live ones. -/
def scoreMergedSpec (C : AggCtx) (S : AggState) (u v : ℤ) : ℚ :=
  let change_roi := (get_lsds_edge_rois C S u v).1
  let desc := mergedSliceDescriptors C S u v
  (change_roi.points.map (fun p =>
    if S.segmentation p == u || S.segmentation p == v
    then sqDiff (C.target_lsds p)
      (desc (List.zipWith (· - ·) p change_roi.get_begin)) else 0)).sum

/-- The descriptors `__compute_node_score` extracts for node `u` (label
`u` over `u`'s ROI slice, no sub-ROI). -/
def nodeDescriptors (C : AggCtx) (S : AggState) (u : ℤ) : Point → List ℚ :=
  C.lsd_extractor.get_descriptors
    (sliceF S.segmentation (S.node_roi u).get_begin) none [u] C.voxel_size

/-- The spec's node score in its own words: the squared difference between
the extracted and the target descriptors, summed over the voxels of `u`'s
region currently labelled `u` (absolute coordinates). -/
def nodeScoreSpec (C : AggCtx) (S : AggState) (u : ℤ) : ℚ :=
  let roi := S.node_roi u
  (roi.points.map (fun p =>
    if S.segmentation p == u
    then sqDiff (C.target_lsds p)
      (nodeDescriptors C S u (List.zipWith (· - ·) p roi.get_begin)) else 0)).sum

/-- The adjacency the spec claims: a shared boundary face, i.e. voxels at
city-block distance exactly 1. -/
def face_adjacent (C : AggCtx) (frag : Point → ℤ) (a b : ℤ) : Bool :=
  !(a == b) && (total_roi C).points.any (fun p =>
    frag p == a && (total_roi C).points.any (fun q =>
      frag q == b && ((List.zipWith (· - ·) q p).map Int.natAbs).sum == 1))

/-- A trivial one-channel extractor over one axis: zero physical context,
no downsampling, constant zero descriptors.  Used as concrete test
input. -/
def ex1d : LsdExtractor :=
  ⟨[0], 1, fun _ _ _ _ _ => [0]⟩

/-- A 1-D volume of two voxels `[1, 2]`. -/
def frag12 : Point → ℤ := fun p => if p == [0] then 1 else 2

/-- Context for the two-voxel volume, matching target extent. -/
def ctx12 : AggCtx :=
  ⟨ex1d, fun _ => [0], [1], [2], [2]⟩

/-- The state reached by initializing on the two-voxel volume. -/
def state12 : AggState := init_state ctx12 frag12

/-- A trivial one-channel extractor over two axes. -/
def ex2d : LsdExtractor :=
  ⟨[0, 0], 1, fun _ _ _ _ _ => [0]⟩

/-- A 2×2 volume `[[1, 3], [3, 2]]`: labels 1 and 2 touch only
diagonally. -/
def fragDiag : Point → ℤ :=
  fun p => if p == [0, 0] then 1 else if p == [1, 1] then 2 else 3

/-- Context for the 2×2 volume. -/
def ctxDiag : AggCtx :=
  ⟨ex2d, fun _ => [0], [1, 1], [2, 2], [2, 2]⟩

/-- The state reached by initializing on the 2×2 diagonal volume. -/
def stateDiag : AggState := init_state ctxDiag fragDiag

/-- A hand-built 1-D four-voxel state `[1, 1, 2, 2]` with stored node
attributes, used as concrete input for witnesses of the merge/score
theorems. -/
def state4 : AggState := {
  segmentation := fun p => if p.getD 0 0 < 2 then 1 else 2
  lsds := fun _ => [0]
  node_roi := fun w => if w == 1 then ⟨[0], [2]⟩ else ⟨[2], [2]⟩
  node_score := fun w => if w == 1 then 3 else 4
  edge_weight := fun _ _ => 2
  edges := [(1, 2)] }

/-- Context for the four-voxel state. -/
def ctx4 : AggCtx :=
  ⟨ex1d, fun _ => [0], [1], [4], [4]⟩

/-- A region has the expected dimensionality: offset and shape both list
one entry per axis. -/
def roiDims (r : Roi) (d : ℕ) : Prop :=
  r.offset.length = d ∧ r.shape.length = d

/-! ## Supporting lemmas -/

theorem getD_zipWith {f : ℤ → ℤ → ℤ} {a b : List ℤ} {i : ℕ}
    (ha : i < a.length) (hb : i < b.length) :
    (List.zipWith f a b).getD i 0 = f (a.getD i 0) (b.getD i 0) := by
  have h : i < (List.zipWith f a b).length := by
    rw [List.length_zipWith]; omega
  rw [List.getD_eq_getElem _ _ h, List.getD_eq_getElem _ _ ha,
    List.getD_eq_getElem _ _ hb, List.getElem_zipWith]

theorem mem_gridPoints_length {s : List ℤ} {p : Point} (h : p ∈ gridPoints s) :
    p.length = s.length := by
  induction s generalizing p with
  | nil => simp [gridPoints] at h; simp [h]
  | cons x xs ih =>
    simp only [gridPoints, List.mem_flatMap, List.mem_map] at h
    rcases h with ⟨y, _, q, hq, rfl⟩
    simp [ih hq]

theorem gridPoints_nil {shape : List ℤ} (h : ∃ s ∈ shape, s ≤ 0) :
    gridPoints shape = [] := by
  induction shape with
  | nil => simp at h
  | cons s ss ih =>
    rcases h with ⟨t, ht, hle⟩
    rcases List.mem_cons.mp ht with rfl | hmem
    · have h0 : t.toNat = 0 := by omega
      simp [gridPoints, h0]
    · have h0 : gridPoints ss = [] := ih ⟨t, hmem, hle⟩
      simp [gridPoints, h0]

theorem zip_add_assoc {a b q : List ℤ} (hab : a.length = b.length) :
    List.zipWith (· + ·) a (List.zipWith (· + ·) (List.zipWith (· - ·) b a) q) =
      List.zipWith (· + ·) b q := by
  induction a generalizing b q with
  | nil =>
    cases b with
    | nil => simp
    | cons y ys => simp at hab
  | cons x xs ih =>
    cases b with
    | nil => simp at hab
    | cons y ys =>
      cases q with
      | nil => simp
      | cons z zs =>
        simp only [List.length_cons] at hab
        simp only [List.zipWith]
        have := ih (q := zs) (by omega : xs.length = ys.length)
        simp [this]; ring

theorem zip_sub_add_cancel {a q : List ℤ} (haq : q.length ≤ a.length) :
    List.zipWith (· - ·) (List.zipWith (· + ·) a q) a = q := by
  induction a generalizing q with
  | nil =>
    cases q with
    | nil => simp
    | cons z zs => simp at haq
  | cons x xs ih =>
    cases q with
    | nil => simp
    | cons z zs =>
      simp only [List.length_cons] at haq
      simp only [List.zipWith]
      have := ih (q := zs) (by omega)
      simp [this]

theorem zip_add_sub_cancel {a p : List ℤ} (hap : p.length ≤ a.length) :
    List.zipWith (· + ·) a (List.zipWith (· - ·) p a) = p := by
  induction a generalizing p with
  | nil =>
    cases p with
    | nil => simp
    | cons z zs => simp at hap
  | cons x xs ih =>
    cases p with
    | nil => simp
    | cons z zs =>
      simp only [List.length_cons] at hap
      simp only [List.zipWith]
      have := ih (p := zs) (by omega)
      simp [this]

/-! ## C1: score additivity -/

/-- C1: after `__merge_nodes(u, v)`, the surviving node's score is exactly
`score(u) + score(v) + weight(u, v)`, the weight stored for the edge at
merge time. -/
theorem merge_score_additivity (C : AggCtx) (S : AggState) (u v : ℤ) :
    (merge_nodes C S u v).node_score v =
      S.node_score u + S.node_score v + S.edge_weight u v := by
  simp only [merge_nodes, merge_segmentation]
  simp
  ring

/-! ## C4: edge scoring is a pure read -/

/-- C4: `__compute_edge_score` is a pure read — the state passes through
unchanged, and its value depends only on the live segmentation, the live
descriptors and the node ROIs, so two calls with no intervening merge (and
in particular two calls in a row) return the same value. -/
theorem edge_score_pure (C : AggCtx) (S1 S2 : AggState) (u v : ℤ)
    (hseg : S2.segmentation = S1.segmentation)
    (hlsds : S2.lsds = S1.lsds)
    (hroi : S2.node_roi = S1.node_roi) :
    (compute_edge_score_st C S1 u v).2 = S1 ∧
      (compute_edge_score_st C S2 u v).1 = (compute_edge_score_st C S1 u v).1 := by
  refine ⟨rfl, ?_⟩
  simp only [compute_edge_score_st, compute_edge_score, get_lsds_edge_rois,
    hseg, hlsds, hroi]

/-- Witness for C4 at a concrete input: a state differing from `state4`
only in graph scores (as after unrelated bookkeeping) yields the same edge
score, and the state is untouched. -/
theorem edge_score_pure_witness :
    ({ state4 with node_score := fun _ => 0 } : AggState).segmentation =
        state4.segmentation ∧
      ({ state4 with node_score := fun _ => 0 } : AggState).lsds = state4.lsds ∧
      ({ state4 with node_score := fun _ => 0 } : AggState).node_roi =
        state4.node_roi ∧
      ((compute_edge_score_st ctx4 state4 1 2).2 = state4 ∧
        (compute_edge_score_st ctx4 { state4 with node_score := fun _ => 0 } 1 2).1 =
          (compute_edge_score_st ctx4 state4 1 2).1) :=
  ⟨rfl, rfl, rfl, edge_score_pure ctx4 state4 _ 1 2 rfl rfl rfl⟩

/-! ## C6: no shape validation at construction -/

theorem contains_iff {r : Roi} {p : Point} {d : ℕ}
    (h1 : r.offset.length = d) (h2 : r.shape.length = d) :
    r.contains p = true ↔ p.length = d ∧ ∀ i, i < d →
      r.offset.getD i 0 ≤ p.getD i 0 ∧
        p.getD i 0 < r.offset.getD i 0 + r.shape.getD i 0 := by
  simp only [Roi.contains, Bool.and_eq_true, beq_iff_eq, List.all_eq_true,
    List.mem_range, decide_eq_true_eq]
  constructor
  · rintro ⟨ha, _, hc⟩
    exact ⟨by omega, fun i hi => hc i (by omega)⟩
  · rintro ⟨hp, hall⟩
    exact ⟨by omega, by omega, fun i hi => hall i (by omega)⟩

theorem roiDims_grow {r : Roi} {c1 c2 : List ℤ} {d : ℕ}
    (w : roiDims r d) (h1 : c1.length = d) (h2 : c2.length = d) :
    roiDims (r.grow c1 c2) d := by
  obtain ⟨wo, ws⟩ := w
  constructor <;> simp [Roi.grow, List.length_zipWith, wo, ws, h1, h2]

theorem roiDims_intersect {a b : Roi} {d : ℕ}
    (wa : roiDims a d) (wb : roiDims b d) : roiDims (a.intersect b) d := by
  obtain ⟨a1, a2⟩ := wa; obtain ⟨b1, b2⟩ := wb
  constructor <;>
    simp [Roi.intersect, Roi.get_end, List.length_zipWith, a1, a2, b1, b2]

theorem roiDims_union {a b : Roi} {d : ℕ}
    (wa : roiDims a d) (wb : roiDims b d) : roiDims (a.union b) d := by
  obtain ⟨a1, a2⟩ := wa; obtain ⟨b1, b2⟩ := wb
  constructor <;>
    simp [Roi.union, Roi.get_end, List.length_zipWith, a1, a2, b1, b2]

theorem roiDims_total (C : AggCtx) : roiDims (total_roi C) C.total_shape.length := by
  constructor <;> simp [total_roi]

theorem grow_axis {r : Roi} {c1 c2 : List ℤ} {d i : ℕ} (w : roiDims r d)
    (h1 : c1.length = d) (h2 : c2.length = d) (hi : i < d) :
    (r.grow c1 c2).offset.getD i 0 = r.offset.getD i 0 - c1.getD i 0 ∧
      (r.grow c1 c2).shape.getD i 0 =
        r.shape.getD i 0 + c1.getD i 0 + c2.getD i 0 := by
  obtain ⟨wo, ws⟩ := w
  constructor
  · exact getD_zipWith (by omega) (by omega)
  · show (List.zipWith (· + ·) (List.zipWith (· + ·) r.shape c1) c2).getD i 0 = _
    rw [getD_zipWith (by simp [List.length_zipWith]; omega) (by omega),
      getD_zipWith (by omega) (by omega)]

theorem intersect_axis {a b : Roi} {d i : ℕ}
    (wa : roiDims a d) (wb : roiDims b d) (hi : i < d) :
    (a.intersect b).offset.getD i 0 =
        max (a.offset.getD i 0) (b.offset.getD i 0) ∧
      (a.intersect b).shape.getD i 0 =
        max 0 (min (a.offset.getD i 0 + a.shape.getD i 0)
            (b.offset.getD i 0 + b.shape.getD i 0) -
          max (a.offset.getD i 0) (b.offset.getD i 0)) := by
  obtain ⟨a1, a2⟩ := wa; obtain ⟨b1, b2⟩ := wb
  have he : ∀ r : Roi, r.offset.length = d → r.shape.length = d →
      r.get_end.getD i 0 = r.offset.getD i 0 + r.shape.getD i 0 := by
    intro r hro hrs
    exact getD_zipWith (by omega) (by omega)
  constructor
  · exact getD_zipWith (f := max) (a := a.offset) (b := b.offset)
      (by omega) (by omega)
  · have ea : a.get_end.length = d := by
      simp [Roi.get_end, List.length_zipWith]; omega
    have eb : b.get_end.length = d := by
      simp [Roi.get_end, List.length_zipWith]; omega
    have h1 := getD_zipWith (f := fun x y => max 0 (y - x))
      (a := List.zipWith max a.offset b.offset)
      (b := List.zipWith min a.get_end b.get_end) (i := i)
      (by simp [List.length_zipWith]; omega)
      (by simp [List.length_zipWith]; omega)
    have h2 := getD_zipWith (f := max) (a := a.offset) (b := b.offset) (i := i)
      (by omega) (by omega)
    have h3 := getD_zipWith (f := min) (a := a.get_end) (b := b.get_end) (i := i)
      (by omega) (by omega)
    show (List.zipWith (fun x y => max 0 (y - x))
        (List.zipWith max a.offset b.offset)
        (List.zipWith min a.get_end b.get_end)).getD i 0 = _
    rw [h1, h2, h3, he a a1 a2, he b b1 b2]

theorem union_axis {a b : Roi} {d i : ℕ}
    (wa : roiDims a d) (wb : roiDims b d) (hi : i < d) :
    (a.union b).offset.getD i 0 =
        min (a.offset.getD i 0) (b.offset.getD i 0) ∧
      (a.union b).shape.getD i 0 =
        max (a.offset.getD i 0 + a.shape.getD i 0)
            (b.offset.getD i 0 + b.shape.getD i 0) -
          min (a.offset.getD i 0) (b.offset.getD i 0) := by
  obtain ⟨a1, a2⟩ := wa; obtain ⟨b1, b2⟩ := wb
  have he : ∀ r : Roi, r.offset.length = d → r.shape.length = d →
      r.get_end.getD i 0 = r.offset.getD i 0 + r.shape.getD i 0 := by
    intro r hro hrs
    exact getD_zipWith (by omega) (by omega)
  constructor
  · exact getD_zipWith (f := min) (a := a.offset) (b := b.offset)
      (by omega) (by omega)
  · have ea : a.get_end.length = d := by
      simp [Roi.get_end, List.length_zipWith]; omega
    have eb : b.get_end.length = d := by
      simp [Roi.get_end, List.length_zipWith]; omega
    have h1 := getD_zipWith (f := fun x y => y - x)
      (a := List.zipWith min a.offset b.offset)
      (b := List.zipWith max a.get_end b.get_end) (i := i)
      (by simp [List.length_zipWith]; omega)
      (by simp [List.length_zipWith]; omega)
    have h2 := getD_zipWith (f := min) (a := a.offset) (b := b.offset) (i := i)
      (by omega) (by omega)
    have h3 := getD_zipWith (f := max) (a := a.get_end) (b := b.get_end) (i := i)
      (by omega) (by omega)
    show (List.zipWith (fun x y => y - x)
        (List.zipWith min a.offset b.offset)
        (List.zipWith max a.get_end b.get_end)).getD i 0 = _
    rw [h1, h2, h3, he a a1 a2, he b b1 b2]

theorem total_axis (C : AggCtx) {i : ℕ} (hi : i < C.total_shape.length) :
    (total_roi C).offset.getD i 0 = 0 ∧
      (total_roi C).shape.getD i 0 = C.total_shape.getD i 0 := by
  constructor
  · have h : i < (C.total_shape.map (fun _ => (0 : ℤ))).length := by
      simp [List.length_map]; omega
    rw [show (total_roi C).offset = C.total_shape.map (fun _ => (0 : ℤ)) from rfl,
      List.getD_eq_getElem _ _ h, List.getElem_map]
  · rfl

theorem getD_mem {l : List ℤ} {i : ℕ} (h : i < l.length) : l.getD i 0 ∈ l := by
  rw [List.getD_eq_getElem l 0 h]
  exact List.getElem_mem h

theorem roiDims_edge_rois (C : AggCtx) (S : AggState) (u v : ℤ) {d : ℕ}
    (hT : C.total_shape.length = d) (hcv : (context_vox C).length = d)
    (wu : roiDims (S.node_roi u) d) (wv : roiDims (S.node_roi v) d) :
    roiDims (get_lsds_edge_rois C S u v).1 d ∧
      roiDims (get_lsds_edge_rois C S u v).2 d := by
  have wtot : roiDims (total_roi C) d := hT ▸ roiDims_total C
  have wgu := roiDims_intersect (roiDims_grow wu hcv hcv) wtot
  have wgv := roiDims_intersect (roiDims_grow wv hcv hcv) wtot
  have wun := roiDims_union wu wv
  have wch := roiDims_intersect (roiDims_intersect wgu wgv) wun
  have wctx := roiDims_intersect (roiDims_grow wch hcv hcv) wun
  exact ⟨wch, wctx⟩


theorem axis_bounds_scalar {ou su ov sv c guo gvo ggo ggs uno uns cho chs cxo cxs : ℤ}
    (hc : 0 ≤ c) (hou : 0 ≤ ou) (hov : 0 ≤ ov) (hsu : 0 < su) (hsv : 0 < sv)
    (e1 : guo = max (ou - c) 0)
    (e3 : gvo = max (ov - c) 0)
    (e5 : ggo = max guo gvo)
    (e7 : uno = min ou ov)
    (e8 : uns = max (ou + su) (ov + sv) - min ou ov)
    (e9 : cho = max ggo uno)
    (e10 : chs = max 0 (min (ggo + ggs) (uno + uns) - max ggo uno))
    (e11 : cxo = max (cho - c) uno)
    (e12 : cxs = max 0 (min (cho - c + (chs + c + c)) (uno + uns) - max (cho - c) uno)) :
    cxo ≤ cho ∧ cho + chs ≤ cxo + cxs := by
  have f5 : 0 ≤ uns := by
    clear e1 e3 e5 e9 e10 e11 e12
    omega
  have f4 : ggo ≤ uno + uns := by
    clear e9 e10 e11 e12
    omega
  have f3 : cho + chs ≤ uno + uns := by
    clear e1 e3 e5 e7 e8 e11 e12
    omega
  have f0 : 0 ≤ chs := by
    clear e1 e3 e5 e7 e8 e9 e11 e12 f3 f4 f5
    omega
  constructor
  · clear e1 e3 e5 e7 e8 e10 e12 f0 f3 f4 f5
    omega
  · clear e1 e3 e5 e7 e8 e9 e10 f4 f5
    omega

theorem edge_rois_axis_bounds (C : AggCtx) (S : AggState) (u v : ℤ) {d i : ℕ}
    (hT : C.total_shape.length = d)
    (hcv : (context_vox C).length = d)
    (hcnn : ∀ x ∈ context_vox C, 0 ≤ x)
    (wu : roiDims (S.node_roi u) d) (wv : roiDims (S.node_roi v) d)
    (hu0 : ∀ x ∈ (S.node_roi u).offset, 0 ≤ x)
    (hv0 : ∀ x ∈ (S.node_roi v).offset, 0 ≤ x)
    (hus : ∀ x ∈ (S.node_roi u).shape, 0 < x)
    (hvs : ∀ x ∈ (S.node_roi v).shape, 0 < x)
    (hi : i < d) :
    (get_lsds_edge_rois C S u v).2.offset.getD i 0 ≤
        (get_lsds_edge_rois C S u v).1.offset.getD i 0 ∧
      (get_lsds_edge_rois C S u v).1.offset.getD i 0 +
          (get_lsds_edge_rois C S u v).1.shape.getD i 0 ≤
        (get_lsds_edge_rois C S u v).2.offset.getD i 0 +
          (get_lsds_edge_rois C S u v).2.shape.getD i 0 := by
  have wtot : roiDims (total_roi C) d := hT ▸ roiDims_total C
  have wgu0 := roiDims_grow wu hcv hcv
  have wgu := roiDims_intersect wgu0 wtot
  have wgv0 := roiDims_grow wv hcv hcv
  have wgv := roiDims_intersect wgv0 wtot
  have wgg := roiDims_intersect wgu wgv
  have wun := roiDims_union wu wv
  have wch := roiDims_intersect wgg wun
  have wchg := roiDims_grow wch hcv hcv
  obtain ⟨gu1, gu2⟩ := grow_axis wu hcv hcv hi
  obtain ⟨gv1, gv2⟩ := grow_axis wv hcv hcv hi
  obtain ⟨t1, t2⟩ := total_axis C (i := i) (by omega)
  obtain ⟨igu1, igu2⟩ := intersect_axis wgu0 wtot hi
  obtain ⟨igv1, igv2⟩ := intersect_axis wgv0 wtot hi
  obtain ⟨igg1, igg2⟩ := intersect_axis wgu wgv hi
  obtain ⟨un1, un2⟩ := union_axis wu wv hi
  obtain ⟨ch1, ch2⟩ := intersect_axis wgg wun hi
  obtain ⟨chg1, chg2⟩ := grow_axis wch hcv hcv hi
  obtain ⟨ctx1, ctx2⟩ := intersect_axis wchg wun hi
  have hc0 : 0 ≤ (context_vox C).getD i 0 := hcnn _ (getD_mem (by omega))
  have hou : 0 ≤ (S.node_roi u).offset.getD i 0 :=
    hu0 _ (getD_mem (by rw [wu.1]; omega))
  have hov : 0 ≤ (S.node_roi v).offset.getD i 0 :=
    hv0 _ (getD_mem (by rw [wv.1]; omega))
  have hsu : 0 < (S.node_roi u).shape.getD i 0 :=
    hus _ (getD_mem (by rw [wu.2]; omega))
  have hsv : 0 < (S.node_roi v).shape.getD i 0 :=
    hvs _ (getD_mem (by rw [wv.2]; omega))
  have hch : (get_lsds_edge_rois C S u v).1 =
      ((((S.node_roi u).grow (context_vox C) (context_vox C)).intersect
          (total_roi C)).intersect
        (((S.node_roi v).grow (context_vox C) (context_vox C)).intersect
          (total_roi C))).intersect
        ((S.node_roi u).union (S.node_roi v)) := rfl
  have hctx : (get_lsds_edge_rois C S u v).2 =
      ((get_lsds_edge_rois C S u v).1.grow (context_vox C)
          (context_vox C)).intersect
        ((S.node_roi u).union (S.node_roi v)) := rfl
  rw [hctx, hch]
  refine axis_bounds_scalar hc0 hou hov hsu hsv ?_ ?_ igg1 un1 un2 ch1 ch2 ?_ ?_
  · rw [igu1, gu1, t1]
  · rw [igv1, gv1, t1]
  · rw [ctx1, chg1]
  · rw [ctx2, chg1, chg2]

theorem change_contains_context (C : AggCtx) (S : AggState) (u v : ℤ) {d : ℕ}
    (hT : C.total_shape.length = d)
    (hcv : (context_vox C).length = d)
    (hcnn : ∀ x ∈ context_vox C, 0 ≤ x)
    (wu : roiDims (S.node_roi u) d) (wv : roiDims (S.node_roi v) d)
    (hu0 : ∀ x ∈ (S.node_roi u).offset, 0 ≤ x)
    (hv0 : ∀ x ∈ (S.node_roi v).offset, 0 ≤ x)
    (hus : ∀ x ∈ (S.node_roi u).shape, 0 < x)
    (hvs : ∀ x ∈ (S.node_roi v).shape, 0 < x)
    (p : Point)
    (hp : (get_lsds_edge_rois C S u v).1.contains p = true) :
    (get_lsds_edge_rois C S u v).2.contains p = true := by
  obtain ⟨wch, wctx⟩ := roiDims_edge_rois C S u v hT hcv wu wv
  rw [contains_iff wch.1 wch.2] at hp
  rw [contains_iff wctx.1 wctx.2]
  obtain ⟨hl, hax⟩ := hp
  refine ⟨hl, fun i hi => ?_⟩
  obtain ⟨b1, b2⟩ :=
    edge_rois_axis_bounds C S u v hT hcv hcnn wu wv hu0 hv0 hus hvs hi
  obtain ⟨x1, x2⟩ := hax i hi
  omega

/-! ## C10: the change ROI nests inside the context ROI -/

/-- C10: for non-empty stored node regions (and a non-negative context),
every voxel of the change ROI lies in the context ROI, and the change ROI
made relative to the context ROI's begin has non-negative offsets and ends
within the context ROI's shape, so relative slicing stays in bounds. -/
theorem change_roi_within_context_roi (C : AggCtx) (S : AggState) (u v : ℤ)
    {d : ℕ}
    (hT : C.total_shape.length = d)
    (hcv : (context_vox C).length = d)
    (hcnn : ∀ x ∈ context_vox C, 0 ≤ x)
    (wu : roiDims (S.node_roi u) d) (wv : roiDims (S.node_roi v) d)
    (hu0 : ∀ x ∈ (S.node_roi u).offset, 0 ≤ x)
    (hv0 : ∀ x ∈ (S.node_roi v).offset, 0 ≤ x)
    (hus : ∀ x ∈ (S.node_roi u).shape, 0 < x)
    (hvs : ∀ x ∈ (S.node_roi v).shape, 0 < x) :
    (∀ p, (get_lsds_edge_rois C S u v).1.contains p = true →
        (get_lsds_edge_rois C S u v).2.contains p = true) ∧
      ∀ i, i < d →
        0 ≤ ((get_lsds_edge_rois C S u v).1.sub
            (get_lsds_edge_rois C S u v).2.get_begin).offset.getD i 0 ∧
          ((get_lsds_edge_rois C S u v).1.sub
              (get_lsds_edge_rois C S u v).2.get_begin).offset.getD i 0 +
            ((get_lsds_edge_rois C S u v).1.sub
              (get_lsds_edge_rois C S u v).2.get_begin).shape.getD i 0 ≤
          (get_lsds_edge_rois C S u v).2.shape.getD i 0 := by
  obtain ⟨wch, wctx⟩ := roiDims_edge_rois C S u v hT hcv wu wv
  constructor
  · exact fun p hp =>
      change_contains_context C S u v hT hcv hcnn wu wv hu0 hv0 hus hvs p hp
  · intro i hi
    obtain ⟨b1, b2⟩ :=
      edge_rois_axis_bounds C S u v hT hcv hcnn wu wv hu0 hv0 hus hvs hi
    have hrel : ((get_lsds_edge_rois C S u v).1.sub
        (get_lsds_edge_rois C S u v).2.get_begin).offset.getD i 0 =
          (get_lsds_edge_rois C S u v).1.offset.getD i 0 -
            (get_lsds_edge_rois C S u v).2.offset.getD i 0 :=
      getD_zipWith (by rw [wch.1]; omega)
        (by show i < (get_lsds_edge_rois C S u v).2.offset.length
            rw [wctx.1]; omega)
    have hrs : ((get_lsds_edge_rois C S u v).1.sub
        (get_lsds_edge_rois C S u v).2.get_begin).shape.getD i 0 =
          (get_lsds_edge_rois C S u v).1.shape.getD i 0 := rfl
    rw [hrel, hrs]
    omega

/-- Witness for C10 on the four-voxel state: two adjacent one-interval
nodes with non-empty regions. -/
theorem change_roi_within_context_roi_witness :
    ctx4.total_shape.length = 1 ∧
      (context_vox ctx4).length = 1 ∧
      (∀ x ∈ context_vox ctx4, 0 ≤ x) ∧
      roiDims (state4.node_roi 1) 1 ∧ roiDims (state4.node_roi 2) 1 ∧
      (∀ x ∈ (state4.node_roi 1).offset, 0 ≤ x) ∧
      (∀ x ∈ (state4.node_roi 2).offset, 0 ≤ x) ∧
      (∀ x ∈ (state4.node_roi 1).shape, 0 < x) ∧
      (∀ x ∈ (state4.node_roi 2).shape, 0 < x) ∧
      ((∀ p, (get_lsds_edge_rois ctx4 state4 1 2).1.contains p = true →
          (get_lsds_edge_rois ctx4 state4 1 2).2.contains p = true) ∧
        ∀ i, i < 1 →
          0 ≤ ((get_lsds_edge_rois ctx4 state4 1 2).1.sub
              (get_lsds_edge_rois ctx4 state4 1 2).2.get_begin).offset.getD i 0 ∧
            ((get_lsds_edge_rois ctx4 state4 1 2).1.sub
                (get_lsds_edge_rois ctx4 state4 1 2).2.get_begin).offset.getD i 0 +
              ((get_lsds_edge_rois ctx4 state4 1 2).1.sub
                (get_lsds_edge_rois ctx4 state4 1 2).2.get_begin).shape.getD i 0 ≤
            (get_lsds_edge_rois ctx4 state4 1 2).2.shape.getD i 0) := by
  have h1 : ctx4.total_shape.length = 1 := rfl
  have h2 : (context_vox ctx4).length = 1 := by
    norm_num [context_vox, ctx4, ex1d]
  have h3 : ∀ x ∈ context_vox ctx4, 0 ≤ x := by
    norm_num [context_vox, ctx4, ex1d]
  have h4 : roiDims (state4.node_roi 1) 1 := by constructor <;> rfl
  have h5 : roiDims (state4.node_roi 2) 1 := by constructor <;> rfl
  have h6 : ∀ x ∈ (state4.node_roi 1).offset, 0 ≤ x := by decide
  have h7 : ∀ x ∈ (state4.node_roi 2).offset, 0 ≤ x := by decide
  have h8 : ∀ x ∈ (state4.node_roi 1).shape, 0 < x := by decide
  have h9 : ∀ x ∈ (state4.node_roi 2).shape, 0 < x := by decide
  exact ⟨h1, h2, h3, h4, h5, h6, h7, h8, h9,
    change_roi_within_context_roi ctx4 state4 1 2 h1 h2 h3 h4 h5 h6 h7 h8 h9⟩

/-! ## C3: merges are local -/

/-- C3: a merge of `u` into `v` changes no live-descriptor voxel outside
the change ROI (hence none outside the context ROI), and changes no
segmentation voxel outside `u`'s pre-merge region. -/
theorem merge_nodes_locality (C : AggCtx) (S : AggState) (u v : ℤ) {d : ℕ}
    (hT : C.total_shape.length = d)
    (hcv : (context_vox C).length = d)
    (hcnn : ∀ x ∈ context_vox C, 0 ≤ x)
    (wu : roiDims (S.node_roi u) d) (wv : roiDims (S.node_roi v) d)
    (hu0 : ∀ x ∈ (S.node_roi u).offset, 0 ≤ x)
    (hv0 : ∀ x ∈ (S.node_roi v).offset, 0 ≤ x)
    (hus : ∀ x ∈ (S.node_roi u).shape, 0 < x)
    (hvs : ∀ x ∈ (S.node_roi v).shape, 0 < x)
    (p : Point) :
    ((get_lsds_edge_rois C S u v).2.contains p = false →
        (merge_nodes C S u v).lsds p = S.lsds p) ∧
      ((get_lsds_edge_rois C S u v).1.contains p = false →
        (merge_nodes C S u v).lsds p = S.lsds p) ∧
      ((S.node_roi u).contains p = false →
        (merge_nodes C S u v).segmentation p = S.segmentation p) := by
  have hlsds : ∀ hch : (get_lsds_edge_rois C S u v).1.contains p = false,
      (merge_nodes C S u v).lsds p = S.lsds p := by
    intro hch
    have heq : (merge_nodes C S u v).lsds p =
        (if (get_lsds_edge_rois C S u v).1.contains p &&
            (sliceF (sliceF (merge_segmentation S u v).segmentation
                (get_lsds_edge_rois C S u v).2.get_begin)
              ((get_lsds_edge_rois C S u v).1.sub
                (get_lsds_edge_rois C S u v).2.get_begin).get_begin
              (List.zipWith (· - ·) p
                (get_lsds_edge_rois C S u v).1.get_begin) == v)
         then (C.lsd_extractor.get_descriptors
            (sliceF (merge_segmentation S u v).segmentation
              (get_lsds_edge_rois C S u v).2.get_begin)
            (some ((get_lsds_edge_rois C S u v).1.sub
              (get_lsds_edge_rois C S u v).2.get_begin)) [v] C.voxel_size)
            (List.zipWith (· - ·) p (get_lsds_edge_rois C S u v).1.get_begin)
         else S.lsds p) := rfl
    rw [heq, hch]
    simp
  refine ⟨?_, hlsds, ?_⟩
  · intro hctx
    apply hlsds
    cases hch : (get_lsds_edge_rois C S u v).1.contains p with
    | false => rfl
    | true =>
      have := change_contains_context C S u v hT hcv hcnn wu wv
        hu0 hv0 hus hvs p hch
      rw [this] at hctx
      exact absurd hctx (by simp)
  · intro hu
    have heq : (merge_nodes C S u v).segmentation p =
        (if (S.node_roi u).contains p && (S.segmentation p == u) then v
         else S.segmentation p) := rfl
    rw [heq, hu]
    simp

/-- Witness for C3 on the four-voxel state, checked at the voxel `[3]`. -/
theorem merge_nodes_locality_witness :
    ctx4.total_shape.length = 1 ∧
      (context_vox ctx4).length = 1 ∧
      (∀ x ∈ context_vox ctx4, 0 ≤ x) ∧
      roiDims (state4.node_roi 1) 1 ∧ roiDims (state4.node_roi 2) 1 ∧
      (∀ x ∈ (state4.node_roi 1).offset, 0 ≤ x) ∧
      (∀ x ∈ (state4.node_roi 2).offset, 0 ≤ x) ∧
      (∀ x ∈ (state4.node_roi 1).shape, 0 < x) ∧
      (∀ x ∈ (state4.node_roi 2).shape, 0 < x) ∧
      (((get_lsds_edge_rois ctx4 state4 1 2).2.contains [3] = false →
          (merge_nodes ctx4 state4 1 2).lsds [3] = state4.lsds [3]) ∧
        ((get_lsds_edge_rois ctx4 state4 1 2).1.contains [3] = false →
          (merge_nodes ctx4 state4 1 2).lsds [3] = state4.lsds [3]) ∧
        ((state4.node_roi 1).contains [3] = false →
          (merge_nodes ctx4 state4 1 2).segmentation [3] =
            state4.segmentation [3])) := by
  have h1 : ctx4.total_shape.length = 1 := rfl
  have h2 : (context_vox ctx4).length = 1 := by
    norm_num [context_vox, ctx4, ex1d]
  have h3 : ∀ x ∈ context_vox ctx4, 0 ≤ x := by
    norm_num [context_vox, ctx4, ex1d]
  have h4 : roiDims (state4.node_roi 1) 1 := by constructor <;> rfl
  have h5 : roiDims (state4.node_roi 2) 1 := by constructor <;> rfl
  have h6 : ∀ x ∈ (state4.node_roi 1).offset, 0 ≤ x := by decide
  have h7 : ∀ x ∈ (state4.node_roi 2).offset, 0 ≤ x := by decide
  have h8 : ∀ x ∈ (state4.node_roi 1).shape, 0 < x := by decide
  have h9 : ∀ x ∈ (state4.node_roi 2).shape, 0 < x := by decide
  exact ⟨h1, h2, h3, h4, h5, h6, h7, h8, h9,
    merge_nodes_locality ctx4 state4 1 2 h1 h2 h3 h4 h5 h6 h7 h8 h9 [3]⟩

/-! ## C5: merging removes the absorbed label from the segmentation -/

/-- C5: provided `u`'s stored region bounds all `u`-labelled voxels and
`u ≠ v`, after `__merge_nodes(u, v)` no voxel of the volume carries label
`u` any more; every voxel carries either `v` or its previous (surviving)
label. -/
theorem merge_segmentation_invariant (C : AggCtx) (S : AggState) (u v : ℤ)
    (p : Point)
    (hbound : ∀ q ∈ (total_roi C).points, S.segmentation q = u →
      (S.node_roi u).contains q = true)
    (huv : u ≠ v)
    (hp : p ∈ (total_roi C).points) :
    (merge_nodes C S u v).segmentation p ≠ u ∧
      ((merge_nodes C S u v).segmentation p = v ∨
        (merge_nodes C S u v).segmentation p = S.segmentation p) := by
  have heq : (merge_nodes C S u v).segmentation p =
      (if (S.node_roi u).contains p && (S.segmentation p == u) then v
       else S.segmentation p) := rfl
  rw [heq]
  by_cases h : S.segmentation p = u
  · have hcond : ((S.node_roi u).contains p && (S.segmentation p == u)) = true := by
      rw [hbound p hp h, h]
      simp
    rw [if_pos hcond]
    exact ⟨fun hvu => huv hvu.symm, Or.inl rfl⟩
  · have hcond : ((S.node_roi u).contains p && (S.segmentation p == u)) = false := by
      simp [h]
    rw [if_neg (by simp [hcond])]
    exact ⟨h, Or.inr rfl⟩

/-- Witness for C5 on the four-voxel state at the voxel `[0]` (labelled
`u = 1` before the merge, `v = 2` after). -/
theorem merge_segmentation_invariant_witness :
    (∀ q ∈ (total_roi ctx4).points, state4.segmentation q = 1 →
        (state4.node_roi 1).contains q = true) ∧
      (1 : ℤ) ≠ 2 ∧ [0] ∈ (total_roi ctx4).points ∧
      ((merge_nodes ctx4 state4 1 2).segmentation [0] ≠ 1 ∧
        ((merge_nodes ctx4 state4 1 2).segmentation [0] = 2 ∨
          (merge_nodes ctx4 state4 1 2).segmentation [0] =
            state4.segmentation [0])) := by
  have hb : ∀ q ∈ (total_roi ctx4).points, state4.segmentation q = 1 →
      (state4.node_roi 1).contains q = true := by decide
  have hq : [0] ∈ (total_roi ctx4).points := by decide
  exact ⟨hb, by decide, hq,
    merge_segmentation_invariant ctx4 state4 1 2 [0] hb (by decide) hq⟩

/-! ## C7: empty ROIs are not rejected -/

/-- C7 (amended): neither `__get_lsds_edge_rois` nor its callers check for
empty regions — no `InvalidRegion` error exists.  An empty change ROI
flows through scoring silently: both partial sums range over an empty
voxel grid, and the edge score is 0. -/
theorem edge_score_empty_change_roi (C : AggCtx) (S : AggState) (u v : ℤ)
    (h : ∃ s ∈ (get_lsds_edge_rois C S u v).1.shape, s ≤ 0) :
    compute_edge_score C S u v = 0 := by
  have hnil : gridPoints (get_lsds_edge_rois C S u v).1.shape = [] :=
    gridPoints_nil h
  show sumGrid (get_lsds_edge_rois C S u v).1.shape _ -
      sumGrid (get_lsds_edge_rois C S u v).1.shape _ = 0
  rw [sumGrid, sumGrid, hnil]
  simp

/-- Witness for C7 (amended) on the freshly initialized two-voxel volume:
with zero physical context the two adjacent one-voxel nodes produce an
empty change ROI, and scoring the edge (1, 2) returns 0. -/
theorem edge_score_empty_change_roi_witness :
    (∃ s ∈ (get_lsds_edge_rois ctx12 state12 1 2).1.shape, s ≤ 0) ∧
      compute_edge_score ctx12 state12 1 2 = 0 := by
  have hcv : context_vox ctx12 = [0] := by
    norm_num [context_vox, ctx12, ex1d]
  have h1 : state12.node_roi 1 = ⟨[0], [1]⟩ := by decide
  have h2 : state12.node_roi 2 = ⟨[1], [1]⟩ := by decide
  have hch : (get_lsds_edge_rois ctx12 state12 1 2).1.shape = [0] := by
    simp only [get_lsds_edge_rois, h1, h2, hcv]
    decide
  have hex : ∃ s ∈ (get_lsds_edge_rois ctx12 state12 1 2).1.shape, s ≤ 0 := by
    rw [hch]
    exact ⟨0, by simp, le_refl 0⟩
  exact ⟨hex, edge_score_empty_change_roi ctx12 state12 1 2 hex⟩

/-- Counterexample to C7 as stated: on the freshly initialized two-voxel
volume the computed change ROI for the RAG edge (1, 2) is empty, yet no
error is raised — the edge score evaluates (to 0) and the merge of 1 into
2 proceeds, relabelling voxel `[0]`. -/
theorem empty_roi_proceeds :
    (∃ s ∈ (get_lsds_edge_rois ctx12 state12 1 2).1.shape, s ≤ 0) ∧
      compute_edge_score ctx12 state12 1 2 = 0 ∧
      (merge_nodes ctx12 state12 1 2).segmentation [0] = 2 := by
  have hcv : context_vox ctx12 = [0] := by
    norm_num [context_vox, ctx12, ex1d]
  have h1 : state12.node_roi 1 = ⟨[0], [1]⟩ := by decide
  have h2 : state12.node_roi 2 = ⟨[1], [1]⟩ := by decide
  have hch : (get_lsds_edge_rois ctx12 state12 1 2).1.shape = [0] := by
    simp only [get_lsds_edge_rois, h1, h2, hcv]
    decide
  have hex : ∃ s ∈ (get_lsds_edge_rois ctx12 state12 1 2).1.shape, s ≤ 0 := by
    rw [hch]
    exact ⟨0, by simp, le_refl 0⟩
  have hnil : gridPoints (get_lsds_edge_rois ctx12 state12 1 2).1.shape = [] :=
    gridPoints_nil hex
  refine ⟨hex, ?_, ?_⟩
  · show sumGrid (get_lsds_edge_rois ctx12 state12 1 2).1.shape _ -
        sumGrid (get_lsds_edge_rois ctx12 state12 1 2).1.shape _ = 0
    rw [sumGrid, sumGrid, hnil]
    simp
  · have hseg : (merge_nodes ctx12 state12 1 2).segmentation [0] =
        (if (state12.node_roi 1).contains [0] &&
            (state12.segmentation [0] == 1) then 2
         else state12.segmentation [0]) := rfl
    rw [hseg]
    decide

theorem mem_points_length {r : Roi} {d : ℕ} {p : Point}
    (w : roiDims r d) (hp : p ∈ r.points) : p.length = d := by
  simp only [Roi.points, List.mem_map] at hp
  rcases hp with ⟨q, hq, rfl⟩
  rw [List.length_zipWith, mem_gridPoints_length hq, w.1, w.2]
  simp

/-! ## C8: the node score and its descriptor write -/

/-- C8: `__compute_node_score(u)` returns the sum, over the voxels of
`u`'s region currently labelled `u`, of the squared difference between the
descriptors extracted for label `u` and the target descriptors; its only
state effect is writing the extracted descriptors into the live descriptor
volume exactly at the voxels labelled `u` (all other voxels keep their
previous value). -/
theorem node_score_spec (C : AggCtx) (S : AggState) (u : ℤ) {d : ℕ}
    (hT : C.total_shape.length = d)
    (wu : roiDims (S.node_roi u) d)
    (hbound : ∀ q ∈ (total_roi C).points, S.segmentation q = u →
      (S.node_roi u).contains q = true) :
    (compute_node_score C S u).1 = nodeScoreSpec C S u ∧
      ∀ p ∈ (total_roi C).points,
        (compute_node_score C S u).2.lsds p =
          (if S.segmentation p = u
           then nodeDescriptors C S u
             (List.zipWith (· - ·) p (S.node_roi u).get_begin)
           else S.lsds p) := by
  constructor
  · simp only [compute_node_score, nodeScoreSpec, nodeDescriptors, sumGrid,
      Roi.points, Roi.get_begin, List.map_map]
    congr 1
    apply List.map_congr_left
    intro q hq
    have hq' : q.length = d := by rw [mem_gridPoints_length hq, wu.2]
    simp only [Function.comp, sliceF]
    rw [zip_sub_add_cancel
      (by rw [wu.1, hq'] : q.length ≤ (S.node_roi u).offset.length)]
  · intro p hp
    have hplen : p.length = d := by
      rw [mem_points_length (roiDims_total C) hp, hT]
    have hL : (compute_node_score C S u).2.lsds p =
        (if (S.node_roi u).contains p &&
            (sliceF S.segmentation (S.node_roi u).get_begin
              (List.zipWith (· - ·) p (S.node_roi u).get_begin) == u)
         then nodeDescriptors C S u
           (List.zipWith (· - ·) p (S.node_roi u).get_begin)
         else S.lsds p) := rfl
    have hX : sliceF S.segmentation (S.node_roi u).get_begin
        (List.zipWith (· - ·) p (S.node_roi u).get_begin) =
          S.segmentation p := by
      show S.segmentation (List.zipWith (· + ·) (S.node_roi u).get_begin
        (List.zipWith (· - ·) p (S.node_roi u).get_begin)) = _
      rw [zip_add_sub_cancel
        (by show p.length ≤ (S.node_roi u).offset.length
            rw [wu.1, hplen])]
    rw [hL, hX]
    by_cases hsp : S.segmentation p = u
    · have hcond : ((S.node_roi u).contains p && (S.segmentation p == u)) =
          true := by
        rw [hbound p hp hsp, hsp]
        simp
      rw [if_pos hcond, if_pos hsp]
    · have hcond : ((S.node_roi u).contains p && (S.segmentation p == u)) =
          false := by
        simp [hsp]
      rw [if_neg (by simp [hcond]), if_neg hsp]

/-- Witness for C8 on the four-voxel state with `u = 1` (whose region
bounds its voxels). -/
theorem node_score_spec_witness :
    ctx4.total_shape.length = 1 ∧
      roiDims (state4.node_roi 1) 1 ∧
      (∀ q ∈ (total_roi ctx4).points, state4.segmentation q = 1 →
        (state4.node_roi 1).contains q = true) ∧
      ((compute_node_score ctx4 state4 1).1 = nodeScoreSpec ctx4 state4 1 ∧
        ∀ p ∈ (total_roi ctx4).points,
          (compute_node_score ctx4 state4 1).2.lsds p =
            (if state4.segmentation p = 1
             then nodeDescriptors ctx4 state4 1
               (List.zipWith (· - ·) p (state4.node_roi 1).get_begin)
             else state4.lsds p)) := by
  have h1 : ctx4.total_shape.length = 1 := rfl
  have h2 : roiDims (state4.node_roi 1) 1 := by constructor <;> rfl
  have h3 : ∀ q ∈ (total_roi ctx4).points, state4.segmentation q = 1 →
      (state4.node_roi 1).contains q = true := by decide
  exact ⟨h1, h2, h3, node_score_spec ctx4 state4 1 h1 h2 h3⟩

/-! ## C2: the edge score is scoreMerged minus scoreSeparate -/

/-- C2: `__compute_edge_score(u, v)` returns `scoreMerged - scoreSeparate`,
where `scoreSeparate` sums, over the change-ROI voxels currently labelled
`u` or `v`, the squared difference between the current live descriptors and
the target, and `scoreMerged` is the same masked sum using descriptors
extracted for label `v` from a scratch copy of the segmentation slice with
`u` relabelled to `v`. -/
theorem edge_score_refines_spec (C : AggCtx) (S : AggState) (u v : ℤ) {d : ℕ}
    (hT : C.total_shape.length = d)
    (hcv : (context_vox C).length = d)
    (wu : roiDims (S.node_roi u) d) (wv : roiDims (S.node_roi v) d) :
    compute_edge_score C S u v =
      scoreMergedSpec C S u v - scoreSeparateSpec C S u v := by
  obtain ⟨wch, wctx⟩ := roiDims_edge_rois C S u v hT hcv wu wv
  simp only [compute_edge_score, scoreMergedSpec, scoreSeparateSpec,
    mergedSliceDescriptors, sumGrid, Roi.points, Roi.get_begin, Roi.sub,
    List.map_map]
  congr 1
  · congr 1
    apply List.map_congr_left
    intro q hq
    have hq' : q.length = d := by rw [mem_gridPoints_length hq, wch.2]
    simp only [Function.comp, sliceF]
    rw [zip_add_assoc
      (by rw [wctx.1, wch.1] :
        (get_lsds_edge_rois C S u v).2.offset.length =
          (get_lsds_edge_rois C S u v).1.offset.length)]
    rw [zip_sub_add_cancel
      (by rw [wch.1, hq'] :
        q.length ≤ (get_lsds_edge_rois C S u v).1.offset.length)]
    cases hmask :
        (S.segmentation
            (List.zipWith (· + ·) (get_lsds_edge_rois C S u v).1.offset q) ==
          u ||
        S.segmentation
            (List.zipWith (· + ·) (get_lsds_edge_rois C S u v).1.offset q) ==
          v) <;>
      simp [hmask]
  · congr 1
    apply List.map_congr_left
    intro q hq
    have hq' : q.length = d := by rw [mem_gridPoints_length hq, wch.2]
    simp only [Function.comp, sliceF]
    rw [zip_add_assoc
      (by rw [wctx.1, wch.1] :
        (get_lsds_edge_rois C S u v).2.offset.length =
          (get_lsds_edge_rois C S u v).1.offset.length)]
    cases hmask :
        (S.segmentation
            (List.zipWith (· + ·) (get_lsds_edge_rois C S u v).1.offset q) ==
          u ||
        S.segmentation
            (List.zipWith (· + ·) (get_lsds_edge_rois C S u v).1.offset q) ==
          v) <;>
      simp [hmask]

/-- Witness for C2 on the four-voxel state. -/
theorem edge_score_refines_spec_witness :
    ctx4.total_shape.length = 1 ∧
      (context_vox ctx4).length = 1 ∧
      roiDims (state4.node_roi 1) 1 ∧ roiDims (state4.node_roi 2) 1 ∧
      compute_edge_score ctx4 state4 1 2 =
        scoreMergedSpec ctx4 state4 1 2 - scoreSeparateSpec ctx4 state4 1 2 := by
  have h1 : ctx4.total_shape.length = 1 := rfl
  have h2 : (context_vox ctx4).length = 1 := by
    norm_num [context_vox, ctx4, ex1d]
  have h3 : roiDims (state4.node_roi 1) 1 := by constructor <;> rfl
  have h4 : roiDims (state4.node_roi 2) 1 := by constructor <;> rfl
  exact ⟨h1, h2, h3, h4, edge_score_refines_spec ctx4 state4 1 2 h1 h2 h3 h4⟩

/-! ## Tight bounding boxes -/

theorem foldl_min_le_init (l : List Point) (i : ℕ) (a : ℤ) :
    l.foldl (fun m q => min m (q.getD i 0)) a ≤ a := by
  induction l generalizing a with
  | nil => exact le_refl a
  | cons q qs ih =>
    calc qs.foldl (fun m q => min m (q.getD i 0)) (min a (q.getD i 0)) ≤
        min a (q.getD i 0) := ih _
      _ ≤ a := min_le_left _ _

theorem foldl_min_le_of_mem {l : List Point} {p : Point} (h : p ∈ l)
    (i : ℕ) (a : ℤ) :
    l.foldl (fun m q => min m (q.getD i 0)) a ≤ p.getD i 0 := by
  induction l generalizing a with
  | nil => simp at h
  | cons q qs ih =>
    rcases List.mem_cons.mp h with rfl | hmem
    · calc qs.foldl (fun m q => min m (q.getD i 0)) (min a (p.getD i 0)) ≤
          min a (p.getD i 0) := foldl_min_le_init qs i _
        _ ≤ p.getD i 0 := min_le_right _ _
    · exact ih hmem _

theorem foldl_min_cases (l : List Point) (i : ℕ) (a : ℤ) :
    l.foldl (fun m q => min m (q.getD i 0)) a = a ∨
      ∃ p ∈ l, l.foldl (fun m q => min m (q.getD i 0)) a = p.getD i 0 := by
  induction l generalizing a with
  | nil => exact Or.inl rfl
  | cons q qs ih =>
    rcases ih (min a (q.getD i 0)) with h | ⟨p, hp, h⟩
    · rw [List.foldl_cons, h]
      rcases le_total a (q.getD i 0) with hle | hle
      · exact Or.inl (min_eq_left hle)
      · exact Or.inr ⟨q, List.mem_cons_self q qs, min_eq_right hle⟩
    · exact Or.inr ⟨p, List.mem_cons_of_mem q hp, h⟩

theorem init_le_foldl_max (l : List Point) (i : ℕ) (a : ℤ) :
    a ≤ l.foldl (fun m q => max m (q.getD i 0)) a := by
  induction l generalizing a with
  | nil => exact le_refl a
  | cons q qs ih =>
    calc a ≤ max a (q.getD i 0) := le_max_left _ _
      _ ≤ qs.foldl (fun m q => max m (q.getD i 0)) (max a (q.getD i 0)) := ih _

theorem le_foldl_max_of_mem {l : List Point} {p : Point} (h : p ∈ l)
    (i : ℕ) (a : ℤ) :
    p.getD i 0 ≤ l.foldl (fun m q => max m (q.getD i 0)) a := by
  induction l generalizing a with
  | nil => simp at h
  | cons q qs ih =>
    rcases List.mem_cons.mp h with rfl | hmem
    · calc p.getD i 0 ≤ max a (p.getD i 0) := le_max_right _ _
        _ ≤ qs.foldl (fun m q => max m (q.getD i 0)) (max a (p.getD i 0)) :=
          init_le_foldl_max qs i _
    · exact ih hmem _

theorem foldl_max_cases (l : List Point) (i : ℕ) (a : ℤ) :
    l.foldl (fun m q => max m (q.getD i 0)) a = a ∨
      ∃ p ∈ l, l.foldl (fun m q => max m (q.getD i 0)) a = p.getD i 0 := by
  induction l generalizing a with
  | nil => exact Or.inl rfl
  | cons q qs ih =>
    rcases ih (max a (q.getD i 0)) with h | ⟨p, hp, h⟩
    · rw [List.foldl_cons, h]
      rcases le_total a (q.getD i 0) with hle | hle
      · exact Or.inr ⟨q, List.mem_cons_self q qs, max_eq_right hle⟩
      · exact Or.inl (max_eq_left hle)
    · exact Or.inr ⟨p, List.mem_cons_of_mem q hp, h⟩

theorem coordMin_le {pts : List Point} {p : Point} (h : p ∈ pts) (i : ℕ) :
    coordMin pts i ≤ p.getD i 0 := by
  cases pts with
  | nil => simp at h
  | cons p0 rest =>
    rcases List.mem_cons.mp h with rfl | hmem
    · exact foldl_min_le_init rest i _
    · exact foldl_min_le_of_mem hmem i _

theorem le_coordMax {pts : List Point} {p : Point} (h : p ∈ pts) (i : ℕ) :
    p.getD i 0 ≤ coordMax pts i := by
  cases pts with
  | nil => simp at h
  | cons p0 rest =>
    rcases List.mem_cons.mp h with rfl | hmem
    · exact init_le_foldl_max rest i _
    · exact le_foldl_max_of_mem hmem i _

theorem coordMin_attained {pts : List Point} (h : pts ≠ []) (i : ℕ) :
    ∃ p ∈ pts, p.getD i 0 = coordMin pts i := by
  cases pts with
  | nil => exact absurd rfl h
  | cons p0 rest =>
    rcases foldl_min_cases rest i (p0.getD i 0) with h0 | ⟨p, hp, h0⟩
    · exact ⟨p0, List.mem_cons_self p0 rest, h0.symm⟩
    · exact ⟨p, List.mem_cons_of_mem p0 hp, h0.symm⟩

theorem coordMax_attained {pts : List Point} (h : pts ≠ []) (i : ℕ) :
    ∃ p ∈ pts, p.getD i 0 = coordMax pts i := by
  cases pts with
  | nil => exact absurd rfl h
  | cons p0 rest =>
    rcases foldl_max_cases rest i (p0.getD i 0) with h0 | ⟨p, hp, h0⟩
    · exact ⟨p0, List.mem_cons_self p0 rest, h0.symm⟩
    · exact ⟨p, List.mem_cons_of_mem p0 hp, h0.symm⟩

theorem range_map_getD {d i : ℕ} (f : ℕ → ℤ) (hi : i < d) :
    ((List.range d).map f).getD i 0 = f i := by
  have h : i < ((List.range d).map f).length := by simp; omega
  rw [List.getD_eq_getElem _ _ h, List.getElem_map, List.getElem_range]

theorem roiDims_find_objects (C : AggCtx) (frag : Point → ℤ) (u : ℤ) :
    roiDims (find_objects_roi C frag u) C.total_shape.length := by
  constructor <;> simp [find_objects_roi]

theorem find_objects_axis (C : AggCtx) (frag : Point → ℤ) (u : ℤ) {i : ℕ}
    (hi : i < C.total_shape.length) :
    (find_objects_roi C frag u).offset.getD i 0 =
        coordMin ((total_roi C).points.filter (fun p => frag p == u)) i ∧
      (find_objects_roi C frag u).shape.getD i 0 =
        coordMax ((total_roi C).points.filter (fun p => frag p == u)) i + 1 -
          coordMin ((total_roi C).points.filter (fun p => frag p == u)) i := by
  constructor <;> exact range_map_getD _ hi

theorem find_objects_contains (C : AggCtx) (frag : Point → ℤ) (u : ℤ)
    {p : Point} (hp : p ∈ (total_roi C).points) (hfrag : frag p = u) :
    (find_objects_roi C frag u).contains p = true := by
  have hpf : p ∈ (total_roi C).points.filter (fun q => frag q == u) :=
    List.mem_filter.mpr ⟨hp, by simp [hfrag]⟩
  have w := roiDims_find_objects C frag u
  rw [contains_iff w.1 w.2]
  refine ⟨mem_points_length (roiDims_total C) hp, fun i hi => ?_⟩
  obtain ⟨h1, h2⟩ := find_objects_axis C frag u (i := i) hi
  rw [h1, h2]
  have h3 := coordMin_le hpf i
  have h4 := le_coordMax hpf i
  omega

/-! ## Grid snapping -/

theorem roiDims_snap {r : Roi} {g : List ℤ} {d : ℕ}
    (w : roiDims r d) (hg : g.length = d) :
    roiDims (r.snap_to_grid g) d := by
  obtain ⟨w1, w2⟩ := w
  constructor <;>
    simp [Roi.snap_to_grid, Roi.get_end, List.length_zipWith, w1, w2, hg]

theorem snap_axis {r : Roi} {g : List ℤ} {d i : ℕ}
    (w : roiDims r d) (hg : g.length = d) (hi : i < d) :
    (r.snap_to_grid g).offset.getD i 0 =
        g.getD i 0 * Int.fdiv (r.offset.getD i 0) (g.getD i 0) ∧
      (r.snap_to_grid g).shape.getD i 0 =
        g.getD i 0 * (-Int.fdiv (-(r.offset.getD i 0 + r.shape.getD i 0))
            (g.getD i 0)) -
          g.getD i 0 * Int.fdiv (r.offset.getD i 0) (g.getD i 0) := by
  obtain ⟨w1, w2⟩ := w
  have he : r.get_end.getD i 0 = r.offset.getD i 0 + r.shape.getD i 0 :=
    getD_zipWith (by omega) (by omega)
  constructor
  · exact getD_zipWith (f := fun x y => y * Int.fdiv x y) (a := r.offset)
      (b := g) (by omega) (by omega)
  · have h1 := getD_zipWith (f := fun x y => y - x)
      (a := List.zipWith (fun x y => y * Int.fdiv x y) r.offset g)
      (b := List.zipWith (fun x y => y * (-Int.fdiv (-x) y)) r.get_end g)
      (i := i)
      (by simp [List.length_zipWith]; omega)
      (by simp [Roi.get_end, List.length_zipWith]; omega)
    have h2 := getD_zipWith (f := fun x y => y * Int.fdiv x y)
      (a := r.offset) (b := g) (i := i) (by omega) (by omega)
    have h3 := getD_zipWith (f := fun x y => y * (-Int.fdiv (-x) y))
      (a := r.get_end) (b := g) (i := i)
      (by simp [Roi.get_end, List.length_zipWith]; omega) (by omega)
    show (List.zipWith (fun x y => y - x)
        (List.zipWith (fun x y => y * Int.fdiv x y) r.offset g)
        (List.zipWith (fun x y => y * (-Int.fdiv (-x) y)) r.get_end g)).getD
          i 0 = _
    rw [h1, h2, h3, he]

theorem snap_contains {r : Roi} {g : List ℤ} {d : ℕ} {p : Point}
    (w : roiDims r d) (hg : g.length = d) (hpos : ∀ x ∈ g, 0 < x)
    (hc : r.contains p = true) :
    (r.snap_to_grid g).contains p = true := by
  have ws := roiDims_snap w hg
  rw [contains_iff w.1 w.2] at hc
  rw [contains_iff ws.1 ws.2]
  obtain ⟨hl, hax⟩ := hc
  refine ⟨hl, fun i hi => ?_⟩
  obtain ⟨s1, s2⟩ := snap_axis w hg hi
  obtain ⟨x1, x2⟩ := hax i hi
  have hgp : 0 < g.getD i 0 := hpos _ (getD_mem (by omega))
  have hfd : ∀ x : ℤ, g.getD i 0 * Int.fdiv x (g.getD i 0) ≤ x := by
    intro x
    rw [Int.fdiv_eq_ediv _ (by omega : (0 : ℤ) ≤ g.getD i 0)]
    have hm := Int.emod_def x (g.getD i 0)
    have hn := Int.emod_nonneg x (by omega : g.getD i 0 ≠ 0)
    omega
  have hfu : ∀ x : ℤ,
      x ≤ g.getD i 0 * (-Int.fdiv (-x) (g.getD i 0)) := by
    intro x
    have h1 := hfd (-x)
    have h2 : g.getD i 0 * (-Int.fdiv (-x) (g.getD i 0)) =
        -(g.getD i 0 * Int.fdiv (-x) (g.getD i 0)) := by ring
    omega
  have h1 := hfd (r.offset.getD i 0)
  have h2 := hfu (r.offset.getD i 0 + r.shape.getD i 0)
  rw [s1, s2]
  omega

theorem snap_dvd {r : Roi} {g : List ℤ} {d i : ℕ}
    (w : roiDims r d) (hg : g.length = d) (hi : i < d) :
    g.getD i 0 ∣ (r.snap_to_grid g).offset.getD i 0 ∧
      g.getD i 0 ∣ ((r.snap_to_grid g).offset.getD i 0 +
        (r.snap_to_grid g).shape.getD i 0) := by
  obtain ⟨s1, s2⟩ := snap_axis w hg hi
  constructor
  · rw [s1]
    exact Dvd.intro _ rfl
  · rw [s1, s2]
    exact ⟨-Int.fdiv (-(r.offset.getD i 0 + r.shape.getD i 0)) (g.getD i 0),
      by ring⟩

/-! ## The initial RAG -/

theorem mem_rag_nodes (C : AggCtx) (frag : Point → ℤ) (a : ℤ) :
    a ∈ rag_nodes C frag ↔ ∃ p ∈ (total_roi C).points, frag p = a := by
  simp [rag_nodes, List.mem_dedup, List.mem_map]

theorem zip_sub_natAbs (p q : List ℤ) :
    (List.zipWith (· - ·) p q).map Int.natAbs =
      (List.zipWith (· - ·) q p).map Int.natAbs := by
  induction p generalizing q with
  | nil => cases q <;> rfl
  | cons x xs ih =>
    cases q with
    | nil => rfl
    | cons y ys =>
      simp only [List.zipWith, List.map_cons]
      rw [ih]
      congr 1
      omega

theorem zip_sub_bounds (p q : List ℤ) :
    (List.zipWith (· - ·) p q).all
        (fun o => decide (-1 ≤ o) && decide (o ≤ 1)) =
      (List.zipWith (· - ·) q p).all
        (fun o => decide (-1 ≤ o) && decide (o ≤ 1)) := by
  induction p generalizing q with
  | nil => cases q <;> rfl
  | cons x xs ih =>
    cases q with
    | nil => rfl
    | cons y ys =>
      simp only [List.zipWith, List.all_cons]
      rw [ih]
      congr 1
      rw [Bool.eq_iff_iff]
      simp only [Bool.and_eq_true, decide_eq_true_eq]
      omega

theorem struct2_offset_swap (p q : Point) :
    struct2_offset (List.zipWith (· - ·) p q) =
      struct2_offset (List.zipWith (· - ·) q p) := by
  simp only [struct2_offset]
  rw [zip_sub_bounds, zip_sub_natAbs]

theorem rag_adjacent_iff (C : AggCtx) (frag : Point → ℤ) (a b : ℤ) :
    rag_adjacent C frag a b = true ↔
      a ≠ b ∧ ∃ p ∈ (total_roi C).points, frag p = a ∧
        ∃ q ∈ (total_roi C).points, frag q = b ∧
          struct2_offset (List.zipWith (· - ·) q p) = true := by
  simp [rag_adjacent, List.any_eq_true]

theorem rag_adjacent_symm (C : AggCtx) (frag : Point → ℤ) (a b : ℤ) :
    rag_adjacent C frag b a = rag_adjacent C frag a b := by
  rw [Bool.eq_iff_iff, rag_adjacent_iff, rag_adjacent_iff]
  constructor
  · rintro ⟨hne, p, hp, hfp, q, hq, hfq, hoff⟩
    exact ⟨hne.symm, q, hq, hfq, p, hp, hfp, by rw [struct2_offset_swap]; exact hoff⟩
  · rintro ⟨hne, p, hp, hfp, q, hq, hfq, hoff⟩
    exact ⟨hne.symm, q, hq, hfq, p, hp, hfp, by rw [struct2_offset_swap]; exact hoff⟩

theorem rag_edges_mem (C : AggCtx) (frag : Point → ℤ) (e : ℤ × ℤ) :
    e ∈ rag_edges C frag ↔
      e.1 ∈ rag_nodes C frag ∧ e.2 ∈ rag_nodes C frag ∧ e.1 < e.2 ∧
        rag_adjacent C frag e.1 e.2 = true := by
  constructor
  · intro h
    simp only [rag_edges, List.mem_flatMap, List.mem_filterMap] at h
    rcases h with ⟨x, hx, y, hy, hf⟩
    by_cases hc : (decide (x < y) && rag_adjacent C frag x y) = true
    · rw [if_pos hc] at hf
      cases hf
      simp only [Bool.and_eq_true, decide_eq_true_eq] at hc
      exact ⟨hx, hy, hc.1, hc.2⟩
    · rw [if_neg hc] at hf
      cases hf
  · rintro ⟨h1, h2, h3, h4⟩
    simp only [rag_edges, List.mem_flatMap, List.mem_filterMap]
    refine ⟨e.1, h1, e.2, h2, ?_⟩
    rw [if_pos (by simp [h3, h4])]

theorem init_edge_foldl_node_roi (C : AggCtx) (es : List (ℤ × ℤ))
    (S : AggState) :
    (es.foldl (init_edge C) S).node_roi = S.node_roi := by
  induction es generalizing S with
  | nil => rfl
  | cons e es ih =>
    rw [List.foldl_cons, ih]
    rfl

theorem init_node_foldl_node_roi_not_mem (C : AggCtx) (frag : Point → ℤ)
    (l : List ℤ) (S : AggState) (u : ℤ) (hu : u ∉ l) :
    (l.foldl (init_node C frag) S).node_roi u = S.node_roi u := by
  induction l generalizing S with
  | nil => rfl
  | cons w ws ih =>
    have hw : u ≠ w := fun h => hu (h ▸ List.mem_cons_self w ws)
    have hws : u ∉ ws := fun h => hu (List.mem_cons_of_mem w h)
    rw [List.foldl_cons, ih _ hws]
    show (if u == w then _ else S.node_roi u) = S.node_roi u
    rw [if_neg (by simpa using hw)]

theorem init_node_foldl_node_roi_mem (C : AggCtx) (frag : Point → ℤ)
    (l : List ℤ) (S : AggState) (u : ℤ) (hu : u ∈ l) :
    (l.foldl (init_node C frag) S).node_roi u =
      slice_to_roi C (find_objects_roi C frag u) := by
  induction l generalizing S with
  | nil => simp at hu
  | cons w ws ih =>
    by_cases h : u ∈ ws
    · rw [List.foldl_cons]
      exact ih _ h
    · have hw : u = w := by
        rcases List.mem_cons.mp hu with h' | h'
        · exact h'
        · exact absurd h' h
      subst hw
      rw [List.foldl_cons, init_node_foldl_node_roi_not_mem C frag ws _ u h]
      show (if u == u then slice_to_roi C (find_objects_roi C frag u)
        else S.node_roi u) = _
      rw [if_pos (by simp)]

theorem init_node_foldl_edges (C : AggCtx) (frag : Point → ℤ) (l : List ℤ)
    (S : AggState) :
    (l.foldl (init_node C frag) S).edges = S.edges := by
  induction l generalizing S with
  | nil => rfl
  | cons w ws ih =>
    rw [List.foldl_cons, ih]
    rfl

theorem init_edge_foldl_edges (C : AggCtx) (es : List (ℤ × ℤ)) (S : AggState) :
    (es.foldl (init_edge C) S).edges = S.edges := by
  induction es generalizing S with
  | nil => rfl
  | cons e es ih =>
    rw [List.foldl_cons, ih]
    rfl

theorem init_state_node_roi (C : AggCtx) (frag : Point → ℤ) (u : ℤ)
    (hu : u ∈ rag_nodes C frag) :
    (init_state C frag).node_roi u =
      slice_to_roi C (find_objects_roi C frag u) := by
  have h1 : (init_state C frag).node_roi =
      ((rag_nodes C frag).foldl (init_node C frag) _).node_roi :=
    init_edge_foldl_node_roi C (rag_edges C frag) _
  rw [show (init_state C frag).node_roi u =
      ((rag_nodes C frag).foldl (init_node C frag)
        { segmentation := frag
          lsds := fun p => (C.target_lsds p).map (fun _ => 0)
          node_roi := fun _ => ⟨[], []⟩
          node_score := fun _ => 0
          edge_weight := fun _ _ => 0
          edges := rag_edges C frag }).node_roi u from
    congrFun (init_edge_foldl_node_roi C (rag_edges C frag) _) u]
  exact init_node_foldl_node_roi_mem C frag _ _ u hu

theorem init_state_edges (C : AggCtx) (frag : Point → ℤ) :
    (init_state C frag).edges = rag_edges C frag := by
  show ((rag_edges C frag).foldl (init_edge C) _).edges = _
  rw [init_edge_foldl_edges, init_node_foldl_edges]

theorem init_has_edge (C : AggCtx) (frag : Point → ℤ) (a b : ℤ) :
    has_edge (init_state C frag) a b = true ↔
      a ≠ b ∧ ∃ p ∈ (total_roi C).points, frag p = a ∧
        ∃ q ∈ (total_roi C).points, frag q = b ∧
          struct2_offset (List.zipWith (· - ·) q p) = true := by
  rw [show has_edge (init_state C frag) a b =
      (rag_edges C frag).any
        (fun e => e.1 == a && e.2 == b || e.1 == b && e.2 == a) from by
    rw [has_edge, init_state_edges]]
  rw [← rag_adjacent_iff]
  simp only [List.any_eq_true]
  constructor
  · rintro ⟨e, he, hor⟩
    obtain ⟨h1, h2, h3, h4⟩ := (rag_edges_mem C frag e).mp he
    simp only [Bool.or_eq_true, Bool.and_eq_true, beq_iff_eq] at hor
    rcases hor with ⟨rfl, rfl⟩ | ⟨rfl, rfl⟩
    · exact h4
    · rw [rag_adjacent_symm]
      exact h4
  · intro hadj
    have hne : a ≠ b := ((rag_adjacent_iff C frag a b).mp hadj).1
    have hmema : a ∈ rag_nodes C frag := by
      obtain ⟨-, p, hp, hfp, -⟩ := (rag_adjacent_iff C frag a b).mp hadj
      exact (mem_rag_nodes C frag a).mpr ⟨p, hp, hfp⟩
    have hmemb : b ∈ rag_nodes C frag := by
      obtain ⟨-, p, hp, hfp, q, hq, hfq, -⟩ :=
        (rag_adjacent_iff C frag a b).mp hadj
      exact (mem_rag_nodes C frag b).mpr ⟨q, hq, hfq⟩
    rcases lt_trichotomy a b with hab | hab | hab
    · refine ⟨(a, b), (rag_edges_mem C frag (a, b)).mpr
        ⟨hmema, hmemb, hab, hadj⟩, ?_⟩
      simp
    · exact absurd hab hne
    · refine ⟨(b, a), (rag_edges_mem C frag (b, a)).mpr
        ⟨hmemb, hmema, hab, by rw [rag_adjacent_symm]; exact hadj⟩, ?_⟩
      simp

theorem struct2_offset_iff (l : Point) :
    struct2_offset l = true ↔
      (∀ x ∈ l, -1 ≤ x ∧ x ≤ 1) ∧ ((l.map Int.natAbs).sum ≤ 2) := by
  simp [struct2_offset, List.all_eq_true]

theorem replicate_getD {n i : ℕ} (x : ℤ) (hi : i < n) :
    (List.replicate n x).getD i 0 = x := by
  have h : i < (List.replicate n x).length := by simp; omega
  rw [List.getD_eq_getElem _ _ h, List.getElem_replicate]

/-! ## C9: the initial graph and node regions -/

/-- C9 (amended): in the graph built at initialization, an edge joins two
distinct fragment ids iff the fragments occupy voxels whose offset has
every component in `{-1, 0, 1}` and city-block length at most 2 — the
`connectivity=2` neighborhood, which includes diagonal contacts, not
face/boundary connectivity only; and every node's initial region is the
tight bounding box of its voxels (containing them all, with per-axis
extremes attained), snapped outward to the extractor's downsampling grid
(offset and end divisible by the downsampling factor). -/
theorem init_rag_structure (C : AggCtx) (frag : Point → ℤ) (a b u : ℤ)
    {d i : ℕ} (hT : C.total_shape.length = d)
    (hg : 0 < C.lsd_extractor.downsample)
    (hu : u ∈ rag_nodes C frag) (hi : i < d) :
    (has_edge (init_state C frag) a b = true ↔
      a ≠ b ∧ ∃ p ∈ (total_roi C).points, frag p = a ∧
        ∃ q ∈ (total_roi C).points, frag q = b ∧
          (∀ x ∈ List.zipWith (· - ·) q p, -1 ≤ x ∧ x ≤ 1) ∧
          ((List.zipWith (· - ·) q p).map Int.natAbs).sum ≤ 2) ∧
      (init_state C frag).node_roi u =
        slice_to_roi C (find_objects_roi C frag u) ∧
      (∀ p ∈ (total_roi C).points, frag p = u →
        (find_objects_roi C frag u).contains p = true ∧
        ((init_state C frag).node_roi u).contains p = true) ∧
      (∃ p ∈ (total_roi C).points.filter (fun p => frag p == u),
        p.getD i 0 = (find_objects_roi C frag u).offset.getD i 0) ∧
      (∃ p ∈ (total_roi C).points.filter (fun p => frag p == u),
        p.getD i 0 + 1 = (find_objects_roi C frag u).offset.getD i 0 +
          (find_objects_roi C frag u).shape.getD i 0) ∧
      (C.lsd_extractor.downsample ∣
        ((init_state C frag).node_roi u).offset.getD i 0) ∧
      (C.lsd_extractor.downsample ∣
        (((init_state C frag).node_roi u).offset.getD i 0 +
          ((init_state C frag).node_roi u).shape.getD i 0)) := by
  have hroi := init_state_node_roi C frag u hu
  have wbb : roiDims (find_objects_roi C frag u) d :=
    hT ▸ roiDims_find_objects C frag u
  have hgl : (List.replicate (find_objects_roi C frag u).dims
      C.lsd_extractor.downsample).length = d := by
    simp [Roi.dims, wbb.1]
  have hgp : ∀ x ∈ List.replicate (find_objects_roi C frag u).dims
      C.lsd_extractor.downsample, 0 < x := by
    intro x hx
    rw [List.eq_of_mem_replicate hx]
    exact hg
  have hfilter_ne : (total_roi C).points.filter (fun p => frag p == u) ≠ [] := by
    obtain ⟨p, hp, hfp⟩ := (mem_rag_nodes C frag u).mp hu
    exact List.ne_nil_of_mem (List.mem_filter.mpr ⟨hp, by simp [hfp]⟩)
  obtain ⟨fo1, fo2⟩ := find_objects_axis C frag u (i := i) (by omega)
  refine ⟨?_, hroi, ?_, ?_, ?_, ?_, ?_⟩
  · rw [init_has_edge]
    simp only [struct2_offset_iff]
  · intro p hp hfp
    refine ⟨find_objects_contains C frag u hp hfp, ?_⟩
    rw [hroi]
    exact snap_contains wbb hgl hgp (find_objects_contains C frag u hp hfp)
  · obtain ⟨p, hp, hmin⟩ := coordMin_attained hfilter_ne i
    exact ⟨p, hp, by rw [fo1]; exact hmin⟩
  · obtain ⟨p, hp, hmax⟩ := coordMax_attained hfilter_ne i
    refine ⟨p, hp, ?_⟩
    rw [fo1, fo2]
    omega
  · rw [hroi]
    have := (snap_dvd wbb hgl hi).1
    rwa [replicate_getD _ (by rw [Roi.dims, wbb.1]; omega)] at this
  · rw [hroi]
    have := (snap_dvd wbb hgl hi).2
    rwa [replicate_getD _ (by rw [Roi.dims, wbb.1]; omega)] at this

/-- Witness for C9 (amended) on the 2×2 diagonal volume, with `u = 1`,
edge query `(1, 2)`, axis 0. -/
theorem init_rag_structure_witness :
    ctxDiag.total_shape.length = 2 ∧
      0 < ctxDiag.lsd_extractor.downsample ∧
      (1 : ℤ) ∈ rag_nodes ctxDiag fragDiag ∧ (0 : ℕ) < 2 ∧
      ((has_edge (init_state ctxDiag fragDiag) 1 2 = true ↔
        (1 : ℤ) ≠ 2 ∧ ∃ p ∈ (total_roi ctxDiag).points, fragDiag p = 1 ∧
          ∃ q ∈ (total_roi ctxDiag).points, fragDiag q = 2 ∧
            (∀ x ∈ List.zipWith (· - ·) q p, -1 ≤ x ∧ x ≤ 1) ∧
            ((List.zipWith (· - ·) q p).map Int.natAbs).sum ≤ 2) ∧
        (init_state ctxDiag fragDiag).node_roi 1 =
          slice_to_roi ctxDiag (find_objects_roi ctxDiag fragDiag 1) ∧
        (∀ p ∈ (total_roi ctxDiag).points, fragDiag p = 1 →
          (find_objects_roi ctxDiag fragDiag 1).contains p = true ∧
          ((init_state ctxDiag fragDiag).node_roi 1).contains p = true) ∧
        (∃ p ∈ (total_roi ctxDiag).points.filter (fun p => fragDiag p == 1),
          p.getD 0 0 = (find_objects_roi ctxDiag fragDiag 1).offset.getD 0 0) ∧
        (∃ p ∈ (total_roi ctxDiag).points.filter (fun p => fragDiag p == 1),
          p.getD 0 0 + 1 =
            (find_objects_roi ctxDiag fragDiag 1).offset.getD 0 0 +
            (find_objects_roi ctxDiag fragDiag 1).shape.getD 0 0) ∧
        (ctxDiag.lsd_extractor.downsample ∣
          ((init_state ctxDiag fragDiag).node_roi 1).offset.getD 0 0) ∧
        (ctxDiag.lsd_extractor.downsample ∣
          (((init_state ctxDiag fragDiag).node_roi 1).offset.getD 0 0 +
            ((init_state ctxDiag fragDiag).node_roi 1).shape.getD 0 0))) := by
  have h1 : ctxDiag.total_shape.length = 2 := rfl
  have h2 : 0 < ctxDiag.lsd_extractor.downsample := by decide
  have h3 : (1 : ℤ) ∈ rag_nodes ctxDiag fragDiag := by decide
  have h4 : (0 : ℕ) < 2 := by decide
  exact ⟨h1, h2, h3, h4,
    init_rag_structure ctxDiag fragDiag 1 2 1 h1 h2 h3 h4⟩

/-- Counterexample to C9 as stated: on the 2×2 volume `[[1, 3], [3, 2]]`,
fragments 1 and 2 touch only diagonally — they share no boundary face
(`face_adjacent` is false) — yet the graph built at initialization
contains the edge (1, 2). -/
theorem diagonal_edge_counterexample :
    has_edge stateDiag 1 2 = true ∧
      face_adjacent ctxDiag fragDiag 1 2 = false := by
  constructor
  · decide
  · decide
